import Mathlib

/-!
Verification of the worker-pool specification extracted from the
multi-core parallelism notebook (`S10B_Multicore_Parallelism.ipynb`).

Pure functions defined in the notebook (`f`, `f_`, `mc_pi`, the range and
chunking constructions) are embedded directly.  The worker pool itself
(submit/map/cancel/shutdown, Futures, shared counters) is the host
runtime's: only its callers appear in the repository, so its operations
are modelled from the specification and the claims are settled against
that model.
-/

namespace Notebook

/-- Python `range(start, stop, step)` for a positive step, as a list. -/
def pyRange (start stop step : Nat) : List Nat :=
  (List.range ((stop - start + step - 1) / step)).map (fun i => start + step * i)

/-- Notebook cell: `def f(a, b): return a + b`. -/
def f (a b : Nat) : Nat := a + b

/-- Notebook cell: `def f_(args): return f(*args)`; unpacking succeeds only
when `args` has exactly two elements (otherwise Python raises `TypeError`,
modelled as `none`). -/
def f_ (args : List Nat) : Option Nat :=
  match args with
  | [a, b] => some (f a b)
  | _ => none

/-- Section sizes used by `np.array_split(xs, k)`: the first `len % k`
sections get `len / k + 1` elements, the rest `len / k`. -/
def splitSizes (len k : Nat) : List Nat :=
  (List.range k).map (fun i => if i < len % k then len / k + 1 else len / k)

/-- Cut a list into consecutive chunks of the given sizes. -/
def takeChunks : List Nat → List α → List (List α)
  | [], _ => []
  | n :: ns, xs => xs.take n :: takeChunks ns (xs.drop n)

/-- Notebook cell: `np.array_split(xs, k)` on a 1-d integer array. -/
def npArraySplit (xs : List α) (k : Nat) : List (List α) :=
  takeChunks (splitSizes xs.length k) xs

/-- Notebook cell: `chunks = np.array_split(xs, xs.shape[0]//2)` with
`xs = np.arange(24)`. -/
def chunks : List (List Nat) := npArraySplit (List.range 24) (24 / 2)

/-- The `starmap` dispatch style: each argument list is unpacked into the
binary function, exactly as `f(*args)` does. -/
def starmap (g : Nat → Nat → Nat) (argLists : List (List Nat)) : List (Option Nat) :=
  argLists.map (fun args =>
    match args with
    | [a, b] => some (g a b)
    | _ => none)

/-- Membership test of a sample point in the open unit disc, as in
`if (x**2 + y**2) < 1` of `mc_pi`. -/
def inCircle (p : ℚ × ℚ) : Bool := p.1 ^ 2 + p.2 ^ 2 < 1

/-- The accumulator loop of `mc_pi`: `s` after `n` iterations, where
`sample i` is the i-th random point drawn by `np.random.uniform`
(the sampler is an external utility, so it is a parameter). -/
def mcCount (sample : Nat → ℚ × ℚ) : Nat → Nat
  | 0 => 0
  | n + 1 => mcCount sample n + (if inCircle (sample n) then 1 else 0)

/-- Notebook cell `mc_pi`: count the points among `n` samples falling in the
unit disc and return `4*s/n`.  Python's final division raises
`ZeroDivisionError` when `n = 0`, modelled as `none`. -/
def mc_pi (sample : Nat → ℚ × ℚ) (n : Nat) : Option ℚ :=
  if n = 0 then none else some (4 * (mcCount sample n : ℚ) / (n : ℚ))

end Notebook

namespace PoolModel

/-- Modelled from the spec: `map` runs one task per input on the workers;
each completion writes its result into the slot of its input index.  The
store maps an input index to its (possibly not yet written) result. -/
def fillSlots (g : α → β) (xs : List α) : List Nat → (Nat → Option β) → Nat → Option β
  | [], st => st
  | j :: rest, st =>
      fillSlots g xs rest (fun k => if k = j then (xs[j]?).map g else st k)

/-- Modelled from the spec: the result sequence of `pool.map(g, xs)` when the
individual tasks complete in the order given by `order`; the output is read
out slot by slot in input order. -/
def poolMapSchedule (order : List Nat) (g : α → β) (xs : List α) : List (Option β) :=
  (List.range xs.length).map (fillSlots g xs order (fun _ => none))

theorem fillSlots_not_mem (g : α → β) (xs : List α) (st : Nat → Option β)
    (order : List Nat) (i : Nat) (h : i ∉ order) :
    fillSlots g xs order st i = st i := by
  induction order generalizing st with
  | nil => rfl
  | cons j rest ih =>
      simp only [fillSlots]
      rw [ih _ (fun hm => h (List.mem_cons_of_mem _ hm))]
      simp only [List.mem_cons, not_or] at h
      simp [h.1]

theorem fillSlots_mem (g : α → β) (xs : List α) (st : Nat → Option β)
    (order : List Nat) (i : Nat) (h : i ∈ order) :
    fillSlots g xs order st i = (xs[i]?).map g := by
  induction order generalizing st with
  | nil => cases h
  | cons j rest ih =>
      simp only [fillSlots]
      by_cases hm : i ∈ rest
      · exact ih _ hm
      · rw [fillSlots_not_mem g xs _ rest i hm]
        rcases List.mem_cons.mp h with hj | hr
        · simp [hj]
        · exact absurd hr hm

end PoolModel

namespace PoolSM

/-- Modelled from the spec: the state of one Future,
PENDING → RUNNING → one of COMPLETED, FAILED, CANCELLED. -/
inductive FState where
  | pending
  | running
  | completed (v : Int)
  | failed (e : String)
  | cancelled
  deriving DecidableEq, Repr

/-- Terminal Future states: COMPLETED, FAILED or CANCELLED. -/
def FState.isTerminal : FState → Bool
  | .completed _ => true
  | .failed _ => true
  | .cancelled => true
  | _ => false

/-- Modelled from the spec: pool state.  A Task is immutable once submitted
and its body is deterministic, so it is recorded as the outcome its body
produces when run (`Except` models an exception raised inside the Task).
`futures` holds every submitted Future in submission order, `execCount`
counts how many times each Task body has been started. -/
structure PoolState where
  tasks : List (Except String Int)
  futures : List FState
  execCount : List Nat
  closed : Bool
  deriving Repr

/-- The freshly created pool: no submissions, accepting work. -/
def initPool : PoolState := ⟨[], [], [], false⟩

/-- Modelled from the spec: error kinds of the pool API. -/
inductive PoolError where
  | poolClosed
  deriving DecidableEq, Repr

/-- Modelled from the spec: `submit(task) -> Future` enqueues a Task and
returns its Future handle (the index); fails with `PoolClosedError` after
shutdown. -/
def submit (s : PoolState) (t : Except String Int) :
    Except PoolError (PoolState × Nat) :=
  if s.closed then .error .poolClosed
  else .ok ({ s with
                tasks := s.tasks ++ [t],
                futures := s.futures ++ [.pending],
                execCount := s.execCount ++ [0] },
            s.futures.length)

/-- Modelled from the spec: `cancel(future) -> bool` succeeds only when the
Task has not yet started executing (Future still PENDING); otherwise it
returns false and changes nothing. -/
def cancel (s : PoolState) (i : Nat) : Bool × PoolState :=
  if s.futures[i]? = some .pending then
    (true, { s with futures := s.futures.set i .cancelled })
  else (false, s)

/-- Modelled from the spec: a Worker picks up a PENDING Task: the Future
becomes RUNNING and the body's execution count increases. -/
def startTask (s : PoolState) (i : Nat) : PoolState :=
  if s.futures[i]? = some .pending then
    { s with
        futures := s.futures.set i .running,
        execCount := s.execCount.set i ((s.execCount[i]?.getD 0) + 1) }
  else s

/-- The terminal state a Task body's outcome populates its Future with:
a captured exception yields FAILED, a value yields COMPLETED. -/
def outcome : Except String Int → FState
  | .ok v => .completed v
  | .error e => .failed e

/-- Modelled from the spec: a RUNNING Task's body finishes and the pool
populates the Future with the outcome; an exception raised inside the Task
is captured here, not propagated to the Worker's control loop. -/
def finishTask (s : PoolState) (i : Nat) : PoolState :=
  if s.futures[i]? = some .running then
    { s with
        futures := s.futures.set i (outcome ((s.tasks[i]?).getD (.error "lost"))) }
  else s

/-- Modelled from the spec: retrieving a Future's result surfaces the stored
value, re-raising a captured exception; `none` when not yet resolved. -/
def result (s : PoolState) (i : Nat) : Option (Except String Int) :=
  match s.futures[i]? with
  | some (.completed v) => some (.ok v)
  | some (.failed e) => some (.error e)
  | _ => none

/-- Drain one Future during shutdown: run it if still PENDING, let it finish
if RUNNING. -/
def drainOne (s : PoolState) (i : Nat) : PoolState :=
  finishTask (startTask s i) i

/-- Modelled from the spec: `shutdown(wait=true)` stops accepting new
submissions and blocks until every submitted Task has reached a terminal
state. -/
def shutdown (s : PoolState) : PoolState :=
  { (List.range s.futures.length).foldl drainOne s with closed := true }

/-- One operation of the pool API, for quantifying over histories. -/
inductive Op where
  | submitOp (t : Except String Int)
  | cancelOp (i : Nat)
  | startOp (i : Nat)
  | finishOp (i : Nat)
  | shutdownOp

/-- Apply one operation to the pool state (the returned handle or boolean is
dropped; a rejected submission leaves the state unchanged). -/
def step (s : PoolState) : Op → PoolState
  | .submitOp t =>
      match submit s t with
      | .ok (s₂, _) => s₂
      | .error _ => s
  | .cancelOp i => (cancel s i).2
  | .startOp i => startTask s i
  | .finishOp i => finishTask s i
  | .shutdownOp => shutdown s

/-- The pool state after a history of operations on a fresh pool. -/
def run (ops : List Op) : PoolState := ops.foldl step initPool

end PoolSM

/-- Core ordering lemma: whenever the completion order is a permutation of
the input indices, the schedule-dependent result of `map` is the in-order
image of the inputs. -/
theorem poolMapSchedule_perm_eq (order : List Nat) (g : α → β) (xs : List α)
    (h : order.Perm (List.range xs.length)) :
    PoolModel.poolMapSchedule order g xs = xs.map (fun x => some (g x)) := by
  apply List.ext_getElem?
  intro n
  by_cases hn : n < xs.length
  · have h1 : (List.range xs.length)[n]? = some n := List.getElem?_range hn
    have hmem : n ∈ order := h.mem_iff.mpr (List.mem_range.mpr hn)
    have h2 := PoolModel.fillSlots_mem g xs (fun _ => none) order n hmem
    have h3 : xs[n]? = some xs[n] := List.getElem?_eq_getElem hn
    simp [PoolModel.poolMapSchedule, List.getElem?_map, h1, h2, h3]
  · have h1 : (List.range xs.length)[n]? = none :=
      List.getElem?_eq_none (by simpa using Nat.le_of_not_lt hn)
    have h2 : xs[n]? = none := List.getElem?_eq_none (Nat.le_of_not_lt hn)
    simp [PoolModel.poolMapSchedule, List.getElem?_map, h1, h2]

/-- Claim C1: for every finite input sequence, `map` returns the results in
input order: whatever order the tasks complete in (any permutation of the
input indices), the i-th output is the mapped function applied to the i-th
input. -/
theorem c1_map_preserves_input_order (order : List Nat) (g : α → β) (xs : List α)
    (h : order.Perm (List.range xs.length)) :
    PoolModel.poolMapSchedule order g xs = xs.map (fun x => some (g x)) :=
  poolMapSchedule_perm_eq order g xs h

/-- Witness for C1 at a concrete out-of-order completion schedule. -/
theorem c1_map_preserves_input_order_witness :
    PoolModel.poolMapSchedule [2, 0, 1] (fun x => x + 1) [10, 20, 30]
      = ([10, 20, 30] : List Nat).map (fun x => some (x + 1)) :=
  c1_map_preserves_input_order [2, 0, 1] (fun x => x + 1) [10, 20, 30] (by decide)

theorem lt_of_getElem?_eq_some {l : List α} {n : Nat} {a : α}
    (h : l[n]? = some a) : n < l.length := by
  by_contra hc
  rw [List.getElem?_eq_none (Nat.le_of_not_lt hc)] at h
  cases h

/-- Claim C3: `cancel(future)` returns true iff the Task has not yet started
(its Future is still PENDING); a successful cancel moves the Future to
CANCELLED while leaving everything else unchanged and makes the Task body
unstartable, and an unsuccessful cancel leaves the whole state unchanged. -/
theorem c3_cancel_semantics (s : PoolSM.PoolState) (i : Nat) :
    ((PoolSM.cancel s i).1 = true ↔ s.futures[i]? = some .pending) ∧
    (s.futures[i]? = some .pending →
      (PoolSM.cancel s i).2.futures[i]? = some .cancelled ∧
      (PoolSM.cancel s i).2.tasks = s.tasks ∧
      (PoolSM.cancel s i).2.execCount = s.execCount ∧
      (PoolSM.cancel s i).2.closed = s.closed ∧
      PoolSM.startTask (PoolSM.cancel s i).2 i = (PoolSM.cancel s i).2) ∧
    ((PoolSM.cancel s i).1 = false → (PoolSM.cancel s i).2 = s) := by
  by_cases h : s.futures[i]? = some .pending
  · have hlt : i < s.futures.length := lt_of_getElem?_eq_some h
    have hset : (s.futures.set i .cancelled)[i]? = some .cancelled :=
      List.getElem?_set_self hlt
    refine ⟨by simp [PoolSM.cancel, h], fun _ => ⟨?_, ?_, ?_, ?_, ?_⟩, ?_⟩
    · simp [PoolSM.cancel, h, hset]
    · simp [PoolSM.cancel, h]
    · simp [PoolSM.cancel, h]
    · simp [PoolSM.cancel, h]
    · simp [PoolSM.cancel, PoolSM.startTask, h, hset]
    · intro hfalse
      simp [PoolSM.cancel, h] at hfalse
  · refine ⟨by simp [PoolSM.cancel, h], fun hp => absurd hp h, fun _ => ?_⟩
    simp [PoolSM.cancel, h]

/-- Witness for C3: cancelling the single pending Future of a concrete pool
succeeds and marks it CANCELLED. -/
theorem c3_cancel_semantics_witness :
    (PoolSM.cancel ⟨[.ok 1], [.pending], [0], false⟩ 0).1 = true ∧
    (PoolSM.cancel ⟨[.ok 1], [.pending], [0], false⟩ 0).2.futures[0]?
      = some .cancelled := by
  have h := c3_cancel_semantics ⟨[.ok 1], [.pending], [0], false⟩ 0
  exact ⟨h.1.mpr rfl, (h.2.1 rfl).1⟩

namespace PoolSM

/-- Number of times the Task body behind a Future in the given state has
been started: exactly once it has left PENDING other than by cancellation. -/
def countOf : FState → Nat
  | .pending => 0
  | .cancelled => 0
  | _ => 1

/-- Execution-count invariant: `execCount` tracks the Future states. -/
def Inv (s : PoolState) : Prop :=
  s.execCount.length = s.futures.length ∧
  ∀ i : Nat, (s.execCount[i]?).getD 0 = ((s.futures[i]?).map countOf).getD 0

theorem countOf_le_one (st : FState) : countOf st ≤ 1 := by
  cases st <;> simp [countOf]

theorem countOf_outcome (t : Except String Int) : countOf (outcome t) = 1 := by
  cases t <;> rfl

theorem isTerminal_outcome (t : Except String Int) :
    (outcome t).isTerminal = true := by
  cases t <;> rfl

theorem inv_init : Inv initPool :=
  ⟨rfl, fun _ => rfl⟩

theorem inv_submit (s : PoolState) (t : Except String Int) (hs : Inv s) :
    Inv { s with tasks := s.tasks ++ [t], futures := s.futures ++ [.pending],
                 execCount := s.execCount ++ [0] } := by
  obtain ⟨hlen, hidx⟩ := hs
  refine ⟨by simp [hlen], fun i => ?_⟩
  rcases Nat.lt_trichotomy i s.futures.length with hlt | heq | hgt
  · rw [List.getElem?_append_left (by omega), List.getElem?_append_left hlt]
    exact hidx i
  · subst heq
    rw [List.getElem?_append_right (by omega),
        List.getElem?_append_right (by omega), hlen]
    simp [countOf]
  · rw [List.getElem?_eq_none (by simp; omega), List.getElem?_eq_none (by simp; omega)]
    rfl

theorem inv_cancel (s : PoolState) (i : Nat) (hs : Inv s) : Inv (cancel s i).2 := by
  obtain ⟨hlen, hidx⟩ := hs
  by_cases h : s.futures[i]? = some .pending
  · have hlt : i < s.futures.length := lt_of_getElem?_eq_some h
    have h0 : (s.execCount[i]?).getD 0 = 0 := by rw [hidx i, h]; rfl
    refine ⟨by simp [cancel, h, hlen], fun j => ?_⟩
    by_cases hj : j = i
    · subst hj
      simp [cancel, h, List.getElem?_set_self hlt, h0, countOf]
    · simp [cancel, h, List.getElem?_set_ne (Ne.symm hj), hidx j]
  · have heq : (cancel s i).2 = s := by simp [cancel, h]
    rw [heq]
    exact ⟨hlen, hidx⟩

theorem inv_start (s : PoolState) (i : Nat) (hs : Inv s) : Inv (startTask s i) := by
  obtain ⟨hlen, hidx⟩ := hs
  by_cases h : s.futures[i]? = some .pending
  · have hlt : i < s.futures.length := lt_of_getElem?_eq_some h
    have hlt2 : i < s.execCount.length := by omega
    have h0 : (s.execCount[i]?).getD 0 = 0 := by rw [hidx i, h]; rfl
    refine ⟨by simp [startTask, h, hlen], fun j => ?_⟩
    by_cases hj : j = i
    · subst hj
      simp [startTask, h, List.getElem?_set_self hlt, List.getElem?_set_self hlt2,
            h0, countOf]
    · simp [startTask, h, List.getElem?_set_ne (Ne.symm hj), hidx j]
  · have heq : startTask s i = s := by simp [startTask, h]
    rw [heq]
    exact ⟨hlen, hidx⟩

theorem inv_finish (s : PoolState) (i : Nat) (hs : Inv s) : Inv (finishTask s i) := by
  obtain ⟨hlen, hidx⟩ := hs
  by_cases h : s.futures[i]? = some .running
  · have hlt : i < s.futures.length := lt_of_getElem?_eq_some h
    have h1 : (s.execCount[i]?).getD 0 = 1 := by rw [hidx i, h]; rfl
    refine ⟨by simp [finishTask, h, hlen], fun j => ?_⟩
    by_cases hj : j = i
    · subst hj
      simp [finishTask, h, List.getElem?_set_self hlt, h1, countOf_outcome]
    · simp [finishTask, h, List.getElem?_set_ne (Ne.symm hj), hidx j]
  · have heq : finishTask s i = s := by simp [finishTask, h]
    rw [heq]
    exact ⟨hlen, hidx⟩

theorem inv_drainOne (s : PoolState) (i : Nat) (hs : Inv s) : Inv (drainOne s i) :=
  inv_finish _ _ (inv_start _ _ hs)

theorem inv_foldDrain (l : List Nat) (s : PoolState) (hs : Inv s) :
    Inv (l.foldl drainOne s) := by
  induction l generalizing s with
  | nil => exact hs
  | cons j rest ih => exact ih _ (inv_drainOne s j hs)

theorem inv_shutdown (s : PoolState) (hs : Inv s) : Inv (shutdown s) := by
  have h := inv_foldDrain (List.range s.futures.length) s hs
  exact ⟨h.1, h.2⟩

theorem inv_step (s : PoolState) (op : Op) (hs : Inv s) : Inv (step s op) := by
  cases op with
  | submitOp t =>
      by_cases hc : s.closed
      · simp [step, submit, hc]
        exact hs
      · simp [step, submit, hc]
        exact inv_submit s t hs
  | cancelOp i => exact inv_cancel s i hs
  | startOp i => exact inv_start s i hs
  | finishOp i => exact inv_finish s i hs
  | shutdownOp => exact inv_shutdown s hs

theorem inv_run (ops : List Op) : Inv (run ops) := by
  have hgen : ∀ s : PoolState, Inv s → Inv (ops.foldl step s) := by
    induction ops with
    | nil => exact fun s hs => hs
    | cons op rest ih => exact fun s hs => ih _ (inv_step s op hs)
  exact hgen initPool inv_init

theorem stable_startTask (s : PoolState) (i j : Nat) (st : FState)
    (h : s.futures[j]? = some st) (ht : st.isTerminal = true) :
    (startTask s i).futures[j]? = some st := by
  by_cases hc : s.futures[i]? = some .pending
  · by_cases hj : j = i
    · subst hj
      rw [h] at hc
      injection hc with h2
      subst h2
      simp [FState.isTerminal] at ht
    · simp [startTask, hc, List.getElem?_set_ne (Ne.symm hj), h]
  · simp [startTask, hc, h]

theorem stable_finishTask (s : PoolState) (i j : Nat) (st : FState)
    (h : s.futures[j]? = some st) (ht : st.isTerminal = true) :
    (finishTask s i).futures[j]? = some st := by
  by_cases hc : s.futures[i]? = some .running
  · by_cases hj : j = i
    · subst hj
      rw [h] at hc
      injection hc with h2
      subst h2
      simp [FState.isTerminal] at ht
    · simp [finishTask, hc, List.getElem?_set_ne (Ne.symm hj), h]
  · simp [finishTask, hc, h]

theorem stable_cancel (s : PoolState) (i j : Nat) (st : FState)
    (h : s.futures[j]? = some st) (ht : st.isTerminal = true) :
    (cancel s i).2.futures[j]? = some st := by
  by_cases hc : s.futures[i]? = some .pending
  · by_cases hj : j = i
    · subst hj
      rw [h] at hc
      injection hc with h2
      subst h2
      simp [FState.isTerminal] at ht
    · simp [cancel, hc, List.getElem?_set_ne (Ne.symm hj), h]
  · simp [cancel, hc, h]

theorem stable_drainOne (s : PoolState) (i j : Nat) (st : FState)
    (h : s.futures[j]? = some st) (ht : st.isTerminal = true) :
    (drainOne s i).futures[j]? = some st :=
  stable_finishTask _ _ _ _ (stable_startTask _ _ _ _ h ht) ht

theorem stable_foldDrain (l : List Nat) (s : PoolState) (j : Nat) (st : FState)
    (h : s.futures[j]? = some st) (ht : st.isTerminal = true) :
    (l.foldl drainOne s).futures[j]? = some st := by
  induction l generalizing s with
  | nil => exact h
  | cons k rest ih => exact ih _ (stable_drainOne s k j st h ht)

theorem stable_shutdown (s : PoolState) (j : Nat) (st : FState)
    (h : s.futures[j]? = some st) (ht : st.isTerminal = true) :
    (shutdown s).futures[j]? = some st :=
  stable_foldDrain _ s j st h ht

theorem stable_step (s : PoolState) (op : Op) (j : Nat) (st : FState)
    (h : s.futures[j]? = some st) (ht : st.isTerminal = true) :
    (step s op).futures[j]? = some st := by
  cases op with
  | submitOp t =>
      by_cases hc : s.closed
      · simp [step, submit, hc, h]
      · have hj : j < s.futures.length := lt_of_getElem?_eq_some h
        simp [step, submit, hc, List.getElem?_append_left hj, h]
  | cancelOp i => exact stable_cancel s i j st h ht
  | startOp i => exact stable_startTask s i j st h ht
  | finishOp i => exact stable_finishTask s i j st h ht
  | shutdownOp => exact stable_shutdown s j st h ht

theorem length_startTask (s : PoolState) (i : Nat) :
    (startTask s i).futures.length = s.futures.length := by
  by_cases h : s.futures[i]? = some .pending <;> simp [startTask, h]

theorem length_finishTask (s : PoolState) (i : Nat) :
    (finishTask s i).futures.length = s.futures.length := by
  by_cases h : s.futures[i]? = some .running <;> simp [finishTask, h]

theorem length_drainOne (s : PoolState) (i : Nat) :
    (drainOne s i).futures.length = s.futures.length := by
  rw [drainOne, length_finishTask, length_startTask]

theorem length_foldDrain (l : List Nat) :
    ∀ s : PoolState, (l.foldl drainOne s).futures.length = s.futures.length := by
  induction l with
  | nil => exact fun _ => rfl
  | cons k rest ih =>
      intro s
      rw [List.foldl_cons, ih, length_drainOne]

theorem length_shutdown (s : PoolState) :
    (shutdown s).futures.length = s.futures.length := by
  simp [shutdown, length_foldDrain]

theorem drain_terminal (s : PoolState) (i : Nat) (h : i < s.futures.length) :
    (((drainOne s i).futures[i]?).map FState.isTerminal) = some true := by
  have hsome : s.futures[i]? = some s.futures[i] := List.getElem?_eq_getElem h
  cases hst : s.futures[i] with
  | pending =>
      rw [hst] at hsome
      have h1 : (startTask s i).futures[i]? = some .running := by
        simp [startTask, hsome, List.getElem?_set_self h]
      have hlen1 : i < (startTask s i).futures.length := by
        rw [length_startTask]; exact h
      simp [drainOne, finishTask, h1, List.getElem?_set_self hlen1, isTerminal_outcome]
  | running =>
      rw [hst] at hsome
      have h1 : startTask s i = s := by simp [startTask, hsome]
      rw [drainOne, h1]
      simp [finishTask, hsome, List.getElem?_set_self h, isTerminal_outcome]
  | completed v =>
      rw [hst] at hsome
      have h1 : startTask s i = s := by simp [startTask, hsome]
      have h2 : finishTask s i = s := by simp [finishTask, hsome]
      rw [drainOne, h1, h2, hsome]
      rfl
  | failed e =>
      rw [hst] at hsome
      have h1 : startTask s i = s := by simp [startTask, hsome]
      have h2 : finishTask s i = s := by simp [finishTask, hsome]
      rw [drainOne, h1, h2, hsome]
      rfl
  | cancelled =>
      rw [hst] at hsome
      have h1 : startTask s i = s := by simp [startTask, hsome]
      have h2 : finishTask s i = s := by simp [finishTask, hsome]
      rw [drainOne, h1, h2, hsome]
      rfl

theorem foldDrain_terminal (l : List Nat) :
    ∀ (s : PoolState) (i : Nat), i ∈ l → i < s.futures.length →
      (((l.foldl drainOne s).futures[i]?).map FState.isTerminal) = some true := by
  induction l with
  | nil =>
      intro s i hmem _
      cases hmem
  | cons k rest ih =>
      intro s i hmem h
      rcases List.mem_cons.mp hmem with heq | hm
      · subst heq
        have hterm := drain_terminal s i h
        rcases Option.map_eq_some'.mp hterm with ⟨st, hst, hb⟩
        have hstable := stable_foldDrain rest (drainOne s i) i st hst hb
        simp [List.foldl_cons, hstable, hb]
      · exact ih (drainOne s k) i hm (by rw [length_drainOne]; exact h)

end PoolSM

/-- Claim C6: a Future transitions at most once out of PENDING/RUNNING into a
terminal state — once terminal it is frozen under every further pool
operation — and no Task body executes more than once, over any history of
submit, cancel, start, finish and shutdown operations on a fresh pool. -/
theorem c6_single_transition_single_execution (ops : List PoolSM.Op)
    (op : PoolSM.Op) (i : Nat) (st : PoolSM.FState)
    (h : (PoolSM.run ops).futures[i]? = some st) (ht : st.isTerminal = true) :
    (PoolSM.step (PoolSM.run ops) op).futures[i]? = some st ∧
    ((PoolSM.run ops).execCount[i]?).getD 0 ≤ 1 := by
  refine ⟨PoolSM.stable_step _ op i st h ht, ?_⟩
  have hinv := PoolSM.inv_run ops
  rw [hinv.2 i, h]
  simpa using PoolSM.countOf_le_one st

/-- Witness for C6: a submitted, started and finished Task's Future stays
COMPLETED under a later cancel, and its body ran at most once. -/
theorem c6_single_transition_single_execution_witness :
    (PoolSM.step (PoolSM.run [.submitOp (.ok 5), .startOp 0, .finishOp 0])
        (.cancelOp 0)).futures[0]? = some (.completed 5) ∧
    ((PoolSM.run [.submitOp (.ok 5), .startOp 0, .finishOp 0]).execCount[0]?).getD 0
      ≤ 1 :=
  c6_single_transition_single_execution [.submitOp (.ok 5), .startOp 0, .finishOp 0]
    (.cancelOp 0) 0 (.completed 5) (by decide) (by decide)

/-- Claim C7: `shutdown(wait=true)` leaves every previously submitted Future
in a terminal state, drops none of them, closes the pool, and any later
submission fails with `PoolClosedError`. -/
theorem c7_shutdown_drains_and_closes (s : PoolSM.PoolState) (i : Nat)
    (h : i < s.futures.length) (t : Except String Int) :
    (((PoolSM.shutdown s).futures[i]?).map PoolSM.FState.isTerminal) = some true ∧
    (PoolSM.shutdown s).futures.length = s.futures.length ∧
    (PoolSM.shutdown s).closed = true ∧
    PoolSM.submit (PoolSM.shutdown s) t = .error .poolClosed := by
  refine ⟨?_, PoolSM.length_shutdown s, rfl, ?_⟩
  · have hmem : i ∈ List.range s.futures.length := List.mem_range.mpr h
    have hterm := PoolSM.foldDrain_terminal (List.range s.futures.length) s i hmem h
    simpa [PoolSM.shutdown] using hterm
  · have hc : (PoolSM.shutdown s).closed = true := rfl
    simp [PoolSM.submit, hc]

/-- Witness for C7: shutting down a pool holding one pending Task resolves
that Future, keeps it, closes the pool and rejects a later submission. -/
theorem c7_shutdown_drains_and_closes_witness :
    (((PoolSM.shutdown ⟨[.ok 3], [.pending], [0], false⟩).futures[0]?).map
        PoolSM.FState.isTerminal) = some true ∧
    (PoolSM.shutdown ⟨[.ok 3], [.pending], [0], false⟩).futures.length
      = (⟨[.ok 3], [.pending], [0], false⟩ : PoolSM.PoolState).futures.length ∧
    (PoolSM.shutdown ⟨[.ok 3], [.pending], [0], false⟩).closed = true ∧
    PoolSM.submit (PoolSM.shutdown ⟨[.ok 3], [.pending], [0], false⟩) (.ok 9)
      = .error .poolClosed :=
  c7_shutdown_drains_and_closes ⟨[.ok 3], [.pending], [0], false⟩ 0 (by decide) (.ok 9)

/-- Claim C8: an exception raised inside a Task is captured on that Task's
Future as FAILED, is re-raised exactly when the caller retrieves the result,
and finishing the failing Task leaves every other Future, the task list and
the pool's open/closed state untouched. -/
theorem c8_exception_isolated_to_future (s : PoolSM.PoolState) (i : Nat) (e : String)
    (hr : s.futures[i]? = some .running) (he : s.tasks[i]? = some (.error e)) :
    (PoolSM.finishTask s i).futures[i]? = some (.failed e) ∧
    PoolSM.result (PoolSM.finishTask s i) i = some (.error e) ∧
    (∀ j, j ≠ i → (PoolSM.finishTask s i).futures[j]? = s.futures[j]?) ∧
    (PoolSM.finishTask s i).tasks = s.tasks ∧
    (PoolSM.finishTask s i).closed = s.closed := by
  have hlt : i < s.futures.length := lt_of_getElem?_eq_some hr
  have hfut : (PoolSM.finishTask s i).futures[i]? = some (.failed e) := by
    simp [PoolSM.finishTask, hr, List.getElem?_set_self hlt, he, PoolSM.outcome]
  refine ⟨hfut, ?_, ?_, ?_, ?_⟩
  · simp [PoolSM.result, hfut]
  · intro j hj
    simp [PoolSM.finishTask, hr, List.getElem?_set_ne (Ne.symm hj)]
  · simp [PoolSM.finishTask, hr]
  · simp [PoolSM.finishTask, hr]

/-- Witness for C8: a Task raising "boom" fails its own Future, the error is
surfaced at result retrieval, and the neighbouring pending Future is kept. -/
theorem c8_exception_isolated_to_future_witness :
    (PoolSM.finishTask ⟨[.error "boom", .ok 7], [.running, .pending], [1, 0], false⟩
        0).futures[0]? = some (.failed "boom") ∧
    PoolSM.result
        (PoolSM.finishTask ⟨[.error "boom", .ok 7], [.running, .pending], [1, 0], false⟩ 0)
        0 = some (.error "boom") ∧
    (PoolSM.finishTask ⟨[.error "boom", .ok 7], [.running, .pending], [1, 0], false⟩
        0).futures[1]?
      = (⟨[.error "boom", .ok 7], [.running, .pending], [1, 0], false⟩ :
          PoolSM.PoolState).futures[1]? := by
  have h := c8_exception_isolated_to_future
    ⟨[.error "boom", .ok 7], [.running, .pending], [1, 0], false⟩ 0 "boom" rfl rfl
  exact ⟨h.1, h.2.1, h.2.2.1 1 (by decide)⟩

namespace SharedCounter

/-- Modelled from the spec: one increment of the explicit shared counter
performed under exclusive access — the whole read-modify-write is a single
indivisible action. -/
def atomicIncr (c : Nat) : Nat := c + 1

/-- Modelled from the spec: run a schedule of exclusive increments on the
shared counter; the schedule lists which of the `K` Workers performs each
successive increment (mutual exclusion serializes them into a sequence). -/
def runSchedule (K : Nat) : List (Fin K) → Nat → Nat
  | [], c => c
  | _ :: rest, c => runSchedule K rest (atomicIncr c)

theorem runSchedule_eq_length (K : Nat) (sched : List (Fin K)) :
    ∀ c : Nat, runSchedule K sched c = c + sched.length := by
  induction sched with
  | nil => intro c; rfl
  | cons a rest ih =>
      intro c
      simp only [runSchedule, atomicIncr, ih, List.length_cons]
      omega

theorem length_eq_sum_count (K : Nat) (l : List (Fin K)) :
    l.length = ∑ w : Fin K, l.count w := by
  induction l with
  | nil => simp
  | cons a l ih =>
      simp only [List.length_cons, List.count_cons, ih]
      rw [Finset.sum_add_distrib]
      simp

end SharedCounter

/-- Claim C4: if `K` Workers each perform `M` increments on the shared
counter, every increment owning exclusive access for its read-modify-write,
then whatever order mutual exclusion serializes them into, the final counter
value is exactly `K * M` — no increment is lost. -/
theorem c4_shared_counter_no_lost_update (K M : Nat) (sched : List (Fin K))
    (h : ∀ w : Fin K, sched.count w = M) :
    SharedCounter.runSchedule K sched 0 = K * M := by
  rw [SharedCounter.runSchedule_eq_length, SharedCounter.length_eq_sum_count]
  simp [h, Finset.sum_const, Finset.card_univ, Nat.mul_comm]

/-- Witness for C4: two Workers interleaving two increments each yield 4. -/
theorem c4_shared_counter_no_lost_update_witness :
    SharedCounter.runSchedule 2 [0, 1, 0, 1] 0 = 2 * 2 :=
  c4_shared_counter_no_lost_update 2 2 [0, 1, 0, 1] (by decide)

namespace ProcIsolation

/-- The mutable memory of one process; here just the notebook's global
`counter`. -/
structure Mem where
  counter : Int
  deriving DecidableEq, Repr

/-- Notebook cell `f2`: increment the global counter, in whichever process
runs the function. -/
def f2 (m : Mem) : Mem := { m with counter := m.counter + 1 }

/-- Modelled from the spec: `mp.Process(target=body); start(); join()` with
process-based Workers — the child starts from a copy of the parent's memory
and the body mutates only that copy; the pair is (parent memory after the
join, child memory at exit). -/
def spawnRun (parent : Mem) (body : Mem → Mem) : Mem × Mem :=
  (parent, body parent)

/-- Notebook cells 65–67: spawn `n` processes each running `f2`, joining each
before spawning the next, starting from parent memory `p`. -/
def demoLoop : Nat → Mem → Mem
  | 0, p => p
  | n + 1, p => demoLoop n (spawnRun p f2).1

end ProcIsolation

/-- Claim C5: with process-based Workers and no explicit shared region, a
Worker's mutation of an ordinary variable is invisible to the submitter:
the child's copy of the counter is incremented, the parent's copy is
unchanged after any number of spawn-and-join rounds — concretely, the
notebook's ten `f2` processes leave the parent's `counter` at 0. -/
theorem c5_process_isolation (n : Nat) (p : ProcIsolation.Mem) :
    (ProcIsolation.demoLoop n p).counter = p.counter ∧
    (ProcIsolation.spawnRun p ProcIsolation.f2).2.counter = p.counter + 1 ∧
    ProcIsolation.demoLoop 10 ⟨0⟩ = ⟨0⟩ := by
  refine ⟨?_, rfl, rfl⟩
  induction n generalizing p with
  | zero => rfl
  | succ k ih => exact ih p

theorem mcCount_le (sample : Nat → ℚ × ℚ) (n : Nat) :
    Notebook.mcCount sample n ≤ n := by
  induction n with
  | zero => exact Nat.le_refl 0
  | succ k ih =>
      simp only [Notebook.mcCount]
      by_cases hc : Notebook.inCircle (sample k) <;> simp [hc] <;> omega

/-- Claim C9: for `n ≥ 1`, `mc_pi` terminates with the value `4*s/n` for an
integer hit count `0 ≤ s ≤ n`, so the estimate lies in `[0, 4]`; at `n = 0`
the final division is a division by zero (no value is produced), making
`n ≥ 1` the precondition that keeps the error branch unreachable. -/
theorem c9_mc_pi_bounds (sample : Nat → ℚ × ℚ) (n : Nat) (h : 1 ≤ n) :
    Notebook.mc_pi sample 0 = none ∧
    ∃ s : Nat, s ≤ n ∧
      Notebook.mc_pi sample n = some (4 * (s : ℚ) / (n : ℚ)) ∧
      0 ≤ 4 * (s : ℚ) / (n : ℚ) ∧ 4 * (s : ℚ) / (n : ℚ) ≤ 4 := by
  have hn0 : n ≠ 0 := by omega
  have hnq : (0 : ℚ) < (n : ℚ) := by
    exact_mod_cast Nat.pos_of_ne_zero hn0
  refine ⟨rfl, Notebook.mcCount sample n, mcCount_le sample n, ?_, ?_, ?_⟩
  · simp [Notebook.mc_pi, hn0]
  · apply div_nonneg _ (le_of_lt hnq)
    positivity
  · rw [div_le_iff₀ hnq]
    have hsq : ((Notebook.mcCount sample n : ℚ)) ≤ (n : ℚ) := by
      exact_mod_cast mcCount_le sample n
    linarith

/-- Witness for C9 on the constant origin sampler at `n = 2`: both samples
hit the disc, so the estimate is `4`. -/
theorem c9_mc_pi_bounds_witness :
    Notebook.mc_pi (fun _ => ((0 : ℚ), (0 : ℚ))) 0 = none ∧
    ∃ s : Nat, s ≤ 2 ∧
      Notebook.mc_pi (fun _ => ((0 : ℚ), (0 : ℚ))) 2
        = some (4 * (s : ℚ) / ((2 : Nat) : ℚ)) ∧
      0 ≤ 4 * (s : ℚ) / ((2 : Nat) : ℚ) ∧ 4 * (s : ℚ) / ((2 : Nat) : ℚ) ≤ 4 :=
  c9_mc_pi_bounds (fun _ => ((0 : ℚ), (0 : ℚ))) 2 (by omega)

/-- Counterexample for C2 as stated: pairing `range(0,24,2)` with
`range(1,24,2)` yields 12 Tasks, not 10, and the in-order result of `map`
is not the 10-element sequence `[1,5,9,13,17,21,25,29,33,37]`. -/
theorem c2_counterexample :
    ((Notebook.pyRange 0 24 2).zip (Notebook.pyRange 1 24 2)).length ≠ 10 ∧
    PoolModel.poolMapSchedule (List.range 12) (fun p => Notebook.f p.1 p.2)
        ((Notebook.pyRange 0 24 2).zip (Notebook.pyRange 1 24 2))
      ≠ ([1, 5, 9, 13, 17, 21, 25, 29, 33, 37] : List Nat).map some := by
  constructor <;> decide

/-- Claim C2 as amended: pairing `range(0,24,2)` with `range(1,24,2)` builds
the 12 pairs `(0,1),(2,3),...,(22,23)`, and submitting `f(a,b) = a+b` over
them via `map` returns exactly `[1,5,9,13,17,21,25,29,33,37,41,45]` in that
exact order, whatever order the 12 Tasks complete in. -/
theorem c2_map_sum_pairs (order : List Nat) (h : order.Perm (List.range 12)) :
    PoolModel.poolMapSchedule order (fun p => Notebook.f p.1 p.2)
        ((Notebook.pyRange 0 24 2).zip (Notebook.pyRange 1 24 2))
      = ([1, 5, 9, 13, 17, 21, 25, 29, 33, 37, 41, 45] : List Nat).map some := by
  have hlen : ((Notebook.pyRange 0 24 2).zip (Notebook.pyRange 1 24 2)).length = 12 := by
    decide
  have h2 : order.Perm
      (List.range ((Notebook.pyRange 0 24 2).zip (Notebook.pyRange 1 24 2)).length) := by
    rw [hlen]
    exact h
  rw [poolMapSchedule_perm_eq _ _ _ h2]
  decide

/-- Witness for C2 (amended) at a concrete out-of-order completion order. -/
theorem c2_map_sum_pairs_witness :
    PoolModel.poolMapSchedule [11, 0, 1, 2, 3, 4, 5, 6, 7, 8, 9, 10]
        (fun p => Notebook.f p.1 p.2)
        ((Notebook.pyRange 0 24 2).zip (Notebook.pyRange 1 24 2))
      = ([1, 5, 9, 13, 17, 21, 25, 29, 33, 37, 41, 45] : List Nat).map some :=
  c2_map_sum_pairs [11, 0, 1, 2, 3, 4, 5, 6, 7, 8, 9, 10] (by decide)

/-- Claim C10: the three multiple-argument dispatch styles agree — mapping
the adapter `f_` over the 12 two-element chunks of `arange(24)`, mapping `f`
over the iterables `range(0,24,2)` and `range(1,24,2)`, and `starmap` of `f`
over the same chunks all produce the 12-element sequence
`[1,5,9,13,17,21,25,29,33,37,41,45]`. -/
theorem c10_dispatch_styles_agree :
    Notebook.chunks.map Notebook.f_
      = ([1, 5, 9, 13, 17, 21, 25, 29, 33, 37, 41, 45] : List Nat).map some ∧
    List.zipWith Notebook.f (Notebook.pyRange 0 24 2) (Notebook.pyRange 1 24 2)
      = [1, 5, 9, 13, 17, 21, 25, 29, 33, 37, 41, 45] ∧
    Notebook.starmap Notebook.f Notebook.chunks
      = ([1, 5, 9, 13, 17, 21, 25, 29, 33, 37, 41, 45] : List Nat).map some := by
  refine ⟨by decide, by decide, by decide⟩
